import Mathlib

/-!
Verification of `wheeltools` (`src/wheeltools/tools.py`) against its
natural-language specification.

The Python module is embedded shallowly:

* A single target file (the `filename` argument threaded through
  `ensure_permissions`) is modelled as `Option File`: `none` when the path
  does not exist, `some f` with the file's POSIX permission bits
  (`stat.S_IMODE` view, the bits `os.chmod` manipulates) and its byte
  content.
* `ensure_permissions(mode_flags)(f)` is the state-passing function
  `modify`: it mirrors the Python control flow line by line, records every
  `os.chmod` invocation (its mode argument) in a trace, and propagates
  Python exceptions as `Except` errors.  An exception raised by the
  restoring `chmod` in the `finally` block supersedes the wrapped
  operation's outcome, exactly as in Python.
* `dir2zip` / the external `unzip` tool work on a directory tree given as
  the list of regular files `os.walk` would enumerate (relative path,
  permission bits, mtime, content) and on a zip archive given as its list
  of entries.
* `back_tick` / `zip2dir` are parametrised by the result of the spawned
  process (captured stdout/stderr and return code); byte streams are
  carried as their latin-1 decoding, which is a bijection between bytes
  and code points below 256, so no information is lost.
-/

namespace Wheeltools

/-- Constant `stat.S_IWUSR` (owner write bit). -/
def S_IWUSR : Nat := 0o200

/-- Constant `stat.S_IRUSR` (owner read bit). -/
def S_IRUSR : Nat := 0o400

/-- Constant `stat.S_IFREG` (regular-file type flag). -/
def S_IFREG : Nat := 0o100000

/-- Function `stat.S_IMODE(m)`: the twelve permission bits of a raw
`st_mode`. -/
def S_IMODE (m : Nat) : Nat := m &&& 0o7777

/-- State of the single file a scoped-permission operation targets:
permission bits (the `S_IMODE` view of its `st_mode`) and byte content. -/
structure File where
  perms : Nat
  content : List Nat
deriving DecidableEq, Repr

/-- Python exceptions that the modelled fragment can raise. -/
inductive PErr
  | fileNotFound
  | permissionDenied
  | opFail
deriving DecidableEq, Repr

/-- Python `os.chmod(filename, p)` on the target file: raises
`FileNotFoundError` when the path does not exist, otherwise replaces the
permission bits.  (The callers in `tools.py` only ever pass values built
from `S_IMODE` results and `stat` constants, so the POSIX masking to
`0o7777` is the identity on every mode that actually reaches this
call.) -/
def os_chmod (fs : Option File) (p : Nat) : Except PErr (Option File) :=
  match fs with
  | none => .error .fileNotFound
  | some f => .ok (some ⟨p, f.content⟩)

/-- Helper `chmod_perms(fname) = stat.S_IMODE(os.stat(fname).st_mode)`:
in this model the `perms` field already is that `S_IMODE` view. -/
def chmod_perms (f : File) : Nat := f.perms

/-- Result of one call of the wrapper produced by `ensure_permissions`:
the Python outcome (return value or raised exception), the final state of
the target file, and the trace of `os.chmod` invocations (their mode
arguments, in order, attempted ones included). -/
structure MOut (α : Type) where
  res : Except PErr α
  st : Option File
  chmods : List Nat
deriving Repr

/-- The `modify` closure produced by `ensure_permissions(mode_flags)`
applied to a wrapped operation `op` (the decorated `f`, acting on the
target file's state and either returning a value or raising):

    m = chmod_perms(filename) if exists(filename) else mode_flags
    if not m & mode_flags:
        os.chmod(filename, m | mode_flags)
    try:
        return f(filename, *args, **kwargs)
    finally:
        if not m & mode_flags:
            os.chmod(filename, m)
-/
def modify {α : Type} (mode_flags : Nat)
    (op : Option File → Except PErr α × Option File)
    (fs : Option File) : MOut α :=
  let m : Nat :=
    match fs with
    | some f => chmod_perms f
    | none => mode_flags
  if m &&& mode_flags = 0 then
    match os_chmod fs (m ||| mode_flags) with
    | .error e => ⟨.error e, fs, [m ||| mode_flags]⟩
    | .ok fs1 =>
      match op fs1 with
      | (r, fs2) =>
        match os_chmod fs2 m with
        | .error e => ⟨.error e, fs2, [m ||| mode_flags, m]⟩
        | .ok fs3 => ⟨r, fs3, [m ||| mode_flags, m]⟩
  else
    match op fs with
    | (r, fs2) => ⟨r, fs2, []⟩

/-- The body of a `with open_readable(fname, "rb") as fobj: fobj.read()`
block: the OS-level open-for-read, which fails with `PermissionError`
unless the owner-read bit is set (the process owns its files here), and
the subsequent read of the whole content. -/
def read_file (fs : Option File) : Except PErr (List Nat) × Option File :=
  match fs with
  | none => (.error .fileNotFound, none)
  | some f =>
    if f.perms &&& S_IRUSR ≠ 0 then (.ok f.content, some f)
    else (.error .permissionDenied, some f)

/-- The body of an `open(fname, "r+b")`-style use of `open_rw`: the
OS-level open-for-update, which requires both the owner-read and the
owner-write bit. -/
def open_update (fs : Option File) : Except PErr (List Nat) × Option File :=
  match fs with
  | none => (.error .fileNotFound, none)
  | some f =>
    if f.perms &&& (S_IRUSR ||| S_IWUSR) = S_IRUSR ||| S_IWUSR then
      (.ok f.content, some f)
    else (.error .permissionDenied, some f)

/-- One regular file of the input directory tree, as `os.walk` hands it
to `dir2zip`: its path relative to `in_dir` (the string
`relpath(in_fname, in_dir)`), the permission bits of its `st_mode`, its
`st_mtime`, and its byte content. -/
structure TFile where
  path : String
  perms : Nat
  mtime : Int
  content : List Nat
deriving DecidableEq, Repr

/-- The value `os.stat(in_fname).st_mode` of a regular file: the type
flag plus the permission bits. -/
def st_mode (f : TFile) : Nat := S_IFREG ||| f.perms

/-- One entry of the zip archive as `dir2zip` builds it: `info.filename`,
`info.date_time` (the local-time encoding of `st_mtime`; the encoding is
an external bijection carried through unchanged, no claim depends on it),
`info.external_attr`, and the bytes passed to `z.writestr` (compression
is deflate for every entry). -/
structure ZipEntry where
  filename : String
  date_time : Int
  external_attr : Nat
  contents : List Nat
deriving DecidableEq, Repr

/-- The block `with open_readable(in_fname, "rb") as fobj:
contents = fobj.read()`, on a file with permission bits `p` and content
`c`. -/
def scoped_read (p : Nat) (c : List Nat) : Except PErr (List Nat) :=
  (modify S_IRUSR read_file (some ⟨p, c⟩)).res

/-- The `zipfile.ZipInfo` record `dir2zip` writes for one file:
`info.filename = relpath(in_fname, in_dir)`, `info.date_time` from
`st_mtime`, and
`info.external_attr = (stat.S_IMODE(st_mode) | stat.S_IFREG) << 16`. -/
def mk_entry (f : TFile) (contents : List Nat) : ZipEntry :=
  ⟨f.path, f.mtime, (S_IMODE (st_mode f) ||| S_IFREG) <<< 16, contents⟩

/-- Function `dir2zip(in_dir, zip_fname)`: the walk over `in_dir` is
given as the list of regular files it enumerates; each is read through
`open_readable` and written as an entry; a raised exception aborts the
loop and propagates. -/
def dir2zip : List TFile → Except PErr (List ZipEntry)
  | [] => .ok []
  | f :: rest =>
    match scoped_read f.perms f.content with
    | .error e => .error e
    | .ok c =>
      match dir2zip rest with
      | .error e => .error e
      | .ok es => .ok (mk_entry f c :: es)

/-- One regular file of the extracted output tree `D'`: relative path,
permission bits, byte content. -/
structure XFile where
  path : String
  perms : Nat
  content : List Nat
deriving DecidableEq, Repr

/-- Modelled from the spec: the external extraction tool that `zip2dir`
invokes (`unzip -o -d out_dir zip_fname`) is not part of this repository;
per the spec's external-interface contract it writes every archive entry
at its recorded relative path with its recorded content and restores the
POSIX permission bits stored in the upper 16 bits of the entry's
`external_attr` field. -/
def unzip_tool (entries : List ZipEntry) : List XFile :=
  entries.map (fun e => ⟨e.filename, S_IMODE (e.external_attr >>> 16), e.contents⟩)

/-- The `cmd` argument of `back_tick`: a shell string or an argument
list (`cmd_is_seq = isinstance(cmd, (list, tuple))`). -/
inductive Cmd
  | shellStr (s : String)
  | argList (l : List String)
deriving DecidableEq, Repr

/-- What `Popen`/`communicate` produced for one invocation: captured
stdout and stderr (byte streams carried as their latin-1 decoding, a
bijection below code point 256) and `proc.returncode` (`none` when the
process did not report termination). -/
structure ProcResult where
  out : String
  err : String
  retcode : Option Int
deriving DecidableEq, Repr

/-- A raised `RuntimeError` with its message. -/
inductive RunErr
  | runtimeError (msg : String)
deriving DecidableEq, Repr

/-- A Python `str` (decoded) or `bytes` value, as `as_str` selects. -/
inductive PyStr
  | str (s : String)
  | bytes (b : String)
deriving DecidableEq, Repr

/-- Return value of `back_tick`: `out`, or the `(out, err)` pair when
`ret_err` is true. -/
inductive BTOut
  | single (out : PyStr)
  | withErr (out err : PyStr)
deriving DecidableEq, Repr

/-- The string `" ".join(cmd) if cmd_is_seq else cmd`. -/
def cmd_to_str : Cmd → String
  | .shellStr s => s
  | .argList l => String.intercalate " " l

/-- Python `bytes.strip()`: trim surrounding whitespace. -/
def pystrip (s : String) : String := s.trim

/-- Python `.decode("latin-1")`: total on every byte, modelled as the
identity on the carried text. -/
def decode_latin1 (b : String) : String := b

/-- Function `back_tick(cmd, ret_err, as_str, raise_err)`, line by line:
resolve the default `raise_err = not ret_err`; if the return code is
`None`, terminate the process and raise; if `raise_err` and the code is
nonzero, raise a `RuntimeError` carrying the command string, the code
and the decoded stderr; otherwise strip (and, for `as_str`, decode) the
captured streams and return `out` or `(out, err)`. -/
def back_tick (cmd : Cmd) (ret_err : Bool) (as_str : Bool)
    (raise_err : Option Bool) (proc : ProcResult) : Except RunErr BTOut :=
  let raise_err : Bool :=
    match raise_err with
    | none => if ret_err then false else true
    | some b => b
  let cmd_str := cmd_to_str cmd
  match proc.retcode with
  | none => .error (.runtimeError (cmd_str ++ " process did not terminate"))
  | some retcode =>
    if raise_err = true ∧ retcode ≠ 0 then
      .error (.runtimeError (cmd_str ++ " returned code " ++ toString retcode
        ++ " with error " ++ decode_latin1 proc.err))
    else
      let outv : PyStr :=
        if as_str then .str (decode_latin1 (pystrip proc.out))
        else .bytes (pystrip proc.out)
      if ret_err = false then .ok (.single outv)
      else
        .ok (.withErr outv
          (if as_str then .str (decode_latin1 (pystrip proc.err))
            else .bytes (pystrip proc.err)))

/-- The argument list `zip2dir` passes to `back_tick`. -/
def zip2dir_cmd (zip_fname out_dir : String) : List String :=
  ["unzip", "-o", "-d", out_dir, zip_fname]

/-- Function `zip2dir(zip_fname, out_dir) = back_tick(["unzip", "-o",
"-d", out_dir, zip_fname])`, parametrised by the behaviour `pexec` of
the spawned process on a given argument list. -/
def zip2dir (zip_fname out_dir : String)
    (pexec : List String → ProcResult) : Except RunErr BTOut :=
  back_tick (.argList (zip2dir_cmd zip_fname out_dir)) false true none
    (pexec (zip2dir_cmd zip_fname out_dir))

/-- The directory context `find_package_dirs` runs in: the entry names
`os.listdir(root_path)` yields, and the `os.path.isdir` /
`os.path.exists` views of the filesystem. -/
structure FSView where
  entries : List String
  isdir : String → Bool
  pexists : String → Bool

/-- Python `os.path.join(a, b)` for POSIX paths (`posixpath.join`). -/
def pjoin (a b : String) : String :=
  if b.startsWith "/" then b
  else if a = "" ∨ a.endsWith "/" then a ++ b
  else a ++ "/" ++ b

/-- The line `fname = entry if root_path == "." else pjoin(root_path,
entry)`. -/
def fname_of (root_path entry : String) : String :=
  if root_path = "." then entry else pjoin root_path entry

/-- Function `find_package_dirs(root_path)`: the set (modelled as the
list, with membership as set membership) of `fname` over the listed
entries for which `isdir(fname) and exists(pjoin(fname,
"__init__.py"))`. -/
def find_package_dirs (fs : FSView) (root_path : String) : List String :=
  fs.entries.filterMap (fun entry =>
    let fname := fname_of root_path entry
    if fs.isdir fname && fs.pexists (pjoin fname "__init__.py") then some fname
    else none)

/-- The body of the loop in `unique_by_index`:
`if element not in uniques: uniques.append(element)`. -/
def unique_step {α : Type} [DecidableEq α] (uniques : List α) (element : α) :
    List α :=
  if element ∈ uniques then uniques else uniques ++ [element]

/-- Function `unique_by_index(sequence)`: start from `uniques = []` and
run the appending loop over the sequence. -/
def unique_by_index {α : Type} [DecidableEq α] (sequence : List α) : List α :=
  sequence.foldl unique_step []

/-- Index of the first occurrence of `a` in a list (length of the list
when `a` does not occur). -/
def firstIdx {α : Type} [DecidableEq α] (a : α) : List α → Nat
  | [] => 0
  | b :: l => if b = a then 0 else firstIdx a l + 1

/-- The list of first occurrences of a list's elements, in order: the
reference description of order-preserving de-duplication against which
`unique_by_index` is checked. -/
def firstOccs {α : Type} [DecidableEq α] : List α → List α
  | [] => []
  | a :: l => a :: (firstOccs l).filter (fun x => decide (x ≠ a))

theorem modify_grant {α : Type} (B : Nat) (f : File)
    (op : Option File → Except PErr α × Option File)
    (h : f.perms &&& B = 0) (r : Except PErr α) (g : File)
    (hop : op (some ⟨f.perms ||| B, f.content⟩) = (r, some g)) :
    modify B op (some f)
      = ⟨r, some ⟨f.perms, g.content⟩, [f.perms ||| B, f.perms]⟩ := by
  simp only [modify, chmod_perms, os_chmod, h, if_pos, hop]

theorem modify_skip {α : Type} (B : Nat) (f : File)
    (op : Option File → Except PErr α × Option File)
    (h : ¬(f.perms &&& B = 0)) (r : Except PErr α) (fs2 : Option File)
    (hop : op (some f) = (r, fs2)) :
    modify B op (some f) = ⟨r, fs2, []⟩ := by
  simp only [modify, chmod_perms, h, if_neg, hop]
  exact if_neg not_false

/-- Claim C2.  For every existing file and required-bit mask, a call of an
`ensure_permissions(B)`-wrapped operation leaves the file's permission
bits exactly as they were before the call, whether the wrapped operation
returns normally or raises; the hypothesis `hop` states that the wrapped
operation itself (an `open`-and-read/write in all uses in `tools.py`)
preserves the file's existence and permission bits, which also makes the
restoring `chmod` succeed. -/
theorem ensure_permissions_restores (B : Nat) (f : File) {α : Type}
    (op : Option File → Except PErr α × Option File)
    (hop : ∀ fs, Option.map File.perms (op fs).2 = Option.map File.perms fs) :
    Option.map File.perms (modify B op (some f)).st = some f.perms := by
  by_cases h : f.perms &&& B = 0
  · have hop1 := hop (some ⟨f.perms ||| B, f.content⟩)
    rcases hre : op (some ⟨f.perms ||| B, f.content⟩) with ⟨r, fs2⟩
    rw [hre] at hop1
    cases fs2 with
    | none => simp at hop1
    | some g =>
      rw [modify_grant B f op h r g hre]
      rfl
  · rcases hre : op (some f) with ⟨r, fs2⟩
    have hop1 := hop (some f)
    rw [hre] at hop1
    rw [modify_skip B f op h r fs2 hre]
    exact hop1

/-- Witness for C2: a wrapped operation that raises, on a read-only file,
with the owner-write mask; the bits `0o444` survive the call. -/
theorem ensure_permissions_restores_witness :
    Option.map File.perms
      (modify 0o200 (fun fs => ((.error .opFail : Except PErr Nat), fs))
        (some ⟨0o444, [1]⟩)).st = some 0o444 :=
  ensure_permissions_restores 0o200 ⟨0o444, [1]⟩
    (fun fs => ((.error .opFail : Except PErr Nat), fs)) (fun _ => rfl)

/-- Claim C3, evaluated at the failing input.  The code tests
`if not m & mode_flags`, which is true only when NO required bit is
present; on a file with mode `0o400` and the `open_rw` mask
`S_IRUSR | S_IWUSR` the test is false (`0o400 & 0o600 = 0o400`), so no
`chmod` happens at all, the write bit is never granted, and the wrapped
open-for-update fails with `PermissionError` — contrary to the claim (and
to the decorator's own docstring), which require a `chmod` to
`m | B = 0o600` before the wrapped operation runs. -/
theorem open_rw_mode400_skips_chmod :
    (modify (S_IRUSR ||| S_IWUSR) open_update (some ⟨0o400, []⟩)).chmods = []
    ∧ (modify (S_IRUSR ||| S_IWUSR) open_update (some ⟨0o400, []⟩)).res
        = .error .permissionDenied := by
  constructor <;> rfl

/-- Claim C5.  Reading a write-only file (mode `0o200`) through
`open_readable` succeeds, returns the file's bytes, and leaves the mode
at exactly `0o200` afterwards; the wrapper's two `chmod` calls are to
`0o600` (grant) and back to `0o200` (restore). -/
theorem open_readable_unreadable_file (c : List Nat) :
    modify S_IRUSR read_file (some ⟨0o200, c⟩)
      = ⟨.ok c, some ⟨0o200, c⟩, [0o600, 0o200]⟩ := by
  have h648 : (0o200 : Nat) ||| S_IRUSR = 0o600 := by decide
  have h : (0o200 : Nat) &&& S_IRUSR = 0 := by decide
  have h2 : (0o600 : Nat) &&& S_IRUSR ≠ 0 := by decide
  have hop : read_file (some ⟨(0o200 : Nat) ||| S_IRUSR, c⟩)
      = (.ok c, some ⟨(0o200 : Nat) ||| S_IRUSR, c⟩) := by
    rw [h648]
    simp only [read_file]
    rw [if_pos h2]
  have hmain := modify_grant S_IRUSR ⟨0o200, c⟩ read_file h (.ok c)
    ⟨(0o200 : Nat) ||| S_IRUSR, c⟩ hop
  rw [h648] at hmain
  exact hmain

/-- Claim C9 (amended: the required mask must be nonzero, as it is for
every wrapper built in `tools.py`).  When the target path does not exist,
the captured baseline is `mode_flags` itself, so for `B ≠ 0` the test
`not m & mode_flags` fails both at entry and in the `finally` block: no
`chmod` is attempted, the wrapped operation's outcome is passed through,
and a file the operation creates keeps exactly the state its creation
gave it. -/
theorem ensure_permissions_missing_no_chmod (B : Nat) {α : Type}
    (op : Option File → Except PErr α × Option File) (hB : B ≠ 0) :
    (modify B op none).chmods = [] ∧ (modify B op none).st = (op none).2
    ∧ (modify B op none).res = (op none).1 := by
  rcases hre : op none with ⟨r, fs2⟩
  simp [modify, hre, hB]

/-- Witness for C9: `ensure_writable`'s mask `S_IWUSR` on a missing path,
with an operation that creates a file with mode `0o641`; no chmod is
recorded and the created state survives untouched. -/
theorem ensure_permissions_missing_no_chmod_witness :
    (modify 0o200 (fun _ => ((.ok 0 : Except PErr Nat), some ⟨0o641, []⟩))
        none).chmods = []
    ∧ (modify 0o200 (fun _ => ((.ok 0 : Except PErr Nat), some ⟨0o641, []⟩))
        none).st = some ⟨0o641, []⟩
    ∧ (modify 0o200 (fun _ => ((.ok 0 : Except PErr Nat), some ⟨0o641, []⟩))
        none).res = .ok 0 :=
  ensure_permissions_missing_no_chmod 0o200
    (fun _ => ((.ok 0 : Except PErr Nat), some ⟨0o641, []⟩)) (by decide)

/-- Counterexample to claim C9 as stated ("whatever the required mask"):
with mask `0` and a missing path the baseline is `m = 0`, the test
`not (0 & 0)` succeeds, and the wrapper does attempt `os.chmod` at entry
— which raises `FileNotFoundError`, so the wrapped operation never runs
even though it would have returned normally. -/
theorem ensure_permissions_missing_zero_mask_cex :
    (modify 0 (fun fs => ((.ok 0 : Except PErr Nat), fs)) none).chmods = [0]
    ∧ (modify 0 (fun fs => ((.ok 0 : Except PErr Nat), fs)) none).res
        = .error .fileNotFound := by
  constructor <;> rfl

theorem shift16_cancel (x : Nat) : x <<< 16 >>> 16 = x := by
  rw [Nat.shiftLeft_eq, Nat.shiftRight_eq_div_pow]
  exact Nat.mul_div_cancel x (by positivity)

theorem imode_ifreg_lor (p : Nat) (hp : p ≤ 0o7777) :
    S_IMODE (S_IFREG ||| p) = p := by
  unfold S_IMODE S_IFREG
  have h1 : (0o7777 : Nat) = 2 ^ 12 - 1 := by decide
  have h2 : (0o100000 : Nat) = 2 ^ 15 := by decide
  rw [h1, h2]
  apply Nat.eq_of_testBit_eq
  intro i
  rw [Nat.testBit_land, Nat.testBit_lor, Nat.testBit_two_pow,
    Nat.testBit_two_pow_sub_one]
  by_cases hi : i < 12
  · have h15 : ¬(15 = i) := by omega
    simp [hi, h15]
  · have hfalse : p.testBit i = false := by
      apply Nat.testBit_lt_two_pow
      calc p ≤ 0o7777 := hp
        _ < 2 ^ 12 := by norm_num
        _ ≤ 2 ^ i := Nat.pow_le_pow_right (by norm_num) (by omega)
    simp [hi, hfalse]

theorem scoped_read_ok (p : Nat) (c : List Nat) : scoped_read p c = .ok c := by
  unfold scoped_read
  by_cases h : p &&& S_IRUSR = 0
  · have hr : (p ||| S_IRUSR) &&& S_IRUSR ≠ 0 := by
      intro hz
      have ht := congrArg (fun x => Nat.testBit x 8) hz
      have h256 : Nat.testBit S_IRUSR 8 = true := by decide
      simp [Nat.testBit_land, Nat.testBit_lor, h256, Nat.zero_testBit] at ht
    have hop : read_file (some ⟨p ||| S_IRUSR, c⟩)
        = (.ok c, some ⟨p ||| S_IRUSR, c⟩) := by
      simp only [read_file]
      rw [if_pos hr]
    rw [modify_grant S_IRUSR ⟨p, c⟩ read_file h (.ok c) ⟨p ||| S_IRUSR, c⟩ hop]
  · have hop : read_file (some ⟨p, c⟩) = (.ok c, some ⟨p, c⟩) := by
      simp only [read_file]
      rw [if_pos h]
    rw [modify_skip S_IRUSR ⟨p, c⟩ read_file h (.ok c) (some ⟨p, c⟩) hop]

theorem dir2zip_ok (D : List TFile) :
    dir2zip D = .ok (D.map (fun f => mk_entry f f.content)) := by
  induction D with
  | nil => rfl
  | cons f rest ih => simp [dir2zip, scoped_read_ok, ih]

/-- Claim C1.  Packing a tree of regular files with `dir2zip` and
extracting the archive with the external tool yields, for every file of
the tree, a file at the same relative path with byte-identical content
and identical POSIX permission bits (the whole extracted tree is the
original one, file for file); the hypothesis is the POSIX invariant that
permission bits fit in `0o7777`. -/
theorem pack_unpack_roundtrip (D : List TFile)
    (hp : ∀ f ∈ D, f.perms ≤ 0o7777) :
    Except.map unzip_tool (dir2zip D)
      = .ok (D.map (fun f => (⟨f.path, f.perms, f.content⟩ : XFile))) := by
  rw [dir2zip_ok]
  simp only [Except.map, unzip_tool, List.map_map]
  refine congrArg Except.ok (List.map_congr_left ?_)
  intro f hf
  have h1 : S_IMODE (S_IFREG ||| f.perms) = f.perms :=
    imode_ifreg_lor f.perms (hp f hf)
  simp only [Function.comp, mk_entry, st_mode, shift16_cancel, h1]
  rw [Nat.lor_comm, h1]

/-- Witness for C1: a three-file tree (one file in a subdirectory, one
executable, one owner-write-only and hence unreadable until the scoped
reader lifts the read bit) survives the pack/unpack round trip intact. -/
theorem pack_unpack_roundtrip_witness :
    Except.map unzip_tool
        (dir2zip [⟨"a/b.txt", 0o644, 100, [104, 105]⟩,
          ⟨"c.txt", 0o755, 200, [121, 111]⟩, ⟨"d.bin", 0o200, 300, [7]⟩])
      = .ok (([⟨"a/b.txt", 0o644, 100, [104, 105]⟩,
          ⟨"c.txt", 0o755, 200, [121, 111]⟩,
          ⟨"d.bin", 0o200, 300, [7]⟩] : List TFile).map
            (fun f => (⟨f.path, f.perms, f.content⟩ : XFile))) :=
  pack_unpack_roundtrip _ (by decide)

/-- Claim C4.  For every file the pack writes, the archive entry's
`external_attr` is `(S_IMODE(st_mode) | S_IFREG) << 16`; for a file with
permission bits `0o644` that value is `(0o644 | 0o100000) << 16`. -/
theorem dir2zip_external_attr (D : List TFile) (f : TFile) (hf : f ∈ D) :
    ∃ es, dir2zip D = .ok es ∧ ∃ e ∈ es, e.filename = f.path
      ∧ e.external_attr = (S_IMODE (st_mode f) ||| S_IFREG) <<< 16
      ∧ (f.perms = 0o644 →
          e.external_attr = (0o644 ||| 0o100000) <<< 16) := by
  refine ⟨_, dir2zip_ok D, mk_entry f f.content,
    List.mem_map_of_mem _ hf, rfl, rfl, ?_⟩
  intro h644
  show (S_IMODE (st_mode f) ||| S_IFREG) <<< 16 = _
  rw [st_mode, h644]
  decide

/-- Witness for C4: a one-file tree with permission bits `0o644`. -/
theorem dir2zip_external_attr_witness :
    ∃ es, dir2zip [⟨"a.txt", 0o644, 0, [104]⟩] = .ok es
      ∧ ∃ e ∈ es, e.filename = (⟨"a.txt", 0o644, 0, [104]⟩ : TFile).path
      ∧ e.external_attr
          = (S_IMODE (st_mode ⟨"a.txt", 0o644, 0, [104]⟩) ||| S_IFREG) <<< 16
      ∧ ((⟨"a.txt", 0o644, 0, [104]⟩ : TFile).perms = 0o644 →
          e.external_attr = (0o644 ||| 0o100000) <<< 16) :=
  dir2zip_external_attr _ _ (by simp)

/-- Claim C6.  `zip2dir` invokes the extractor with the argument list
exactly `["unzip", "-o", "-d", out_dir, zip_fname]`, and whenever that
process exits with a nonzero status the call raises a `RuntimeError`
whose message carries the command string, the exit code and the decoded
error stream — it never returns normally. -/
theorem zip2dir_invokes_unzip (zip_fname out_dir : String)
    (pexec : List String → ProcResult) (n : Int)
    (hn : (pexec (zip2dir_cmd zip_fname out_dir)).retcode = some n)
    (h0 : n ≠ 0) :
    zip2dir_cmd zip_fname out_dir = ["unzip", "-o", "-d", out_dir, zip_fname]
    ∧ zip2dir zip_fname out_dir pexec
        = .error (.runtimeError
            (cmd_to_str (.argList (zip2dir_cmd zip_fname out_dir))
              ++ " returned code " ++ toString n ++ " with error "
              ++ decode_latin1 (pexec (zip2dir_cmd zip_fname out_dir)).err)) := by
  refine ⟨rfl, ?_⟩
  unfold zip2dir
  simp [back_tick, hn, h0]

/-- Witness for C6: an extraction attempt whose process exits with
status 9 (as `unzip` does on a missing archive) raises. -/
theorem zip2dir_invokes_unzip_witness :
    zip2dir_cmd "a.zip" "out" = ["unzip", "-o", "-d", "out", "a.zip"]
    ∧ zip2dir "a.zip" "out" (fun _ => ⟨"", "cannot find zipfile", some 9⟩)
        = .error (.runtimeError
            (cmd_to_str (.argList (zip2dir_cmd "a.zip" "out"))
              ++ " returned code " ++ toString (9 : Int) ++ " with error "
              ++ decode_latin1
                ((fun _ => (⟨"", "cannot find zipfile", some 9⟩ : ProcResult))
                  (zip2dir_cmd "a.zip" "out")).err)) :=
  zip2dir_invokes_unzip "a.zip" "out"
    (fun _ => ⟨"", "cannot find zipfile", some 9⟩) 9 rfl (by decide)

/-- Claim C7.  With `raise_err` left at `None` and a nonzero exit code,
`back_tick` raises exactly when `ret_err` is false; with `ret_err` true
it returns the `(stdout, stderr)` pair without raising. -/
theorem back_tick_default_raise_iff (cmd : Cmd) (proc : ProcResult)
    (n : Int) (as_str : Bool) (hn : proc.retcode = some n) (h0 : n ≠ 0) :
    back_tick cmd false as_str none proc
        = .error (.runtimeError (cmd_to_str cmd ++ " returned code "
            ++ toString n ++ " with error " ++ decode_latin1 proc.err))
    ∧ back_tick cmd true as_str none proc
        = .ok (.withErr
            (if as_str then .str (decode_latin1 (pystrip proc.out))
              else .bytes (pystrip proc.out))
            (if as_str then .str (decode_latin1 (pystrip proc.err))
              else .bytes (pystrip proc.err))) := by
  constructor
  · simp [back_tick, hn, h0]
  · simp [back_tick, hn]

/-- Witness for C7: a process exiting with status 1. -/
theorem back_tick_default_raise_iff_witness :
    back_tick (.argList ["false"]) false true none ⟨"o", "boom", some 1⟩
        = .error (.runtimeError (cmd_to_str (.argList ["false"])
            ++ " returned code " ++ toString (1 : Int) ++ " with error "
            ++ decode_latin1 "boom"))
    ∧ back_tick (.argList ["false"]) true true none ⟨"o", "boom", some 1⟩
        = .ok (.withErr
            (if true then .str (decode_latin1 (pystrip "o"))
              else .bytes (pystrip "o"))
            (if true then .str (decode_latin1 (pystrip "boom"))
              else .bytes (pystrip "boom"))) :=
  back_tick_default_raise_iff (.argList ["false"]) ⟨"o", "boom", some 1⟩
    1 true rfl (by decide)

/-- Claim C10.  A string is returned by `find_package_dirs(root_path)`
exactly when it is `root_path` joined with a listed entry name (the bare
entry name when `root_path` is `"."`) that is a directory containing an
`__init__.py` file. -/
theorem find_package_dirs_spec (fs : FSView) (root_path : String)
    (d : String) :
    d ∈ find_package_dirs fs root_path
      ↔ ∃ entry ∈ fs.entries,
          d = (if root_path = "." then entry else pjoin root_path entry)
          ∧ fs.isdir d = true
          ∧ fs.pexists (pjoin d "__init__.py") = true := by
  unfold find_package_dirs
  rw [List.mem_filterMap]
  refine exists_congr fun entry => and_congr_right fun _ => ?_
  show (if fs.isdir (fname_of root_path entry)
      && fs.pexists (pjoin (fname_of root_path entry) "__init__.py")
    then some (fname_of root_path entry) else none) = some d ↔ _
  constructor
  · intro hsome
    split at hsome
    · next hc =>
      cases hsome
      rw [Bool.and_eq_true] at hc
      exact ⟨rfl, hc.1, hc.2⟩
    · exact absurd hsome (by simp)
  · rintro ⟨rfl, h1, h2⟩
    rw [if_pos]
    · rfl
    · rw [Bool.and_eq_true]
      exact ⟨h1, h2⟩

theorem firstOccs_filter {α : Type} [DecidableEq α] (p : α → Bool)
    (l : List α) : firstOccs (l.filter p) = (firstOccs l).filter p := by
  induction l with
  | nil => rfl
  | cons h t ih =>
    by_cases hp : p h = true
    · rw [List.filter_cons_of_pos hp]
      show firstOccs (h :: t.filter p) = (firstOccs (h :: t)).filter p
      rw [firstOccs, firstOccs, ih, List.filter_cons_of_pos hp]
      congr 1
      rw [List.filter_filter, List.filter_filter]
      exact List.filter_congr (fun x _ => Bool.and_comm _ _)
    · rw [List.filter_cons_of_neg hp]
      show firstOccs (t.filter p) = (firstOccs (h :: t)).filter p
      rw [firstOccs, ih, List.filter_cons_of_neg hp, List.filter_filter]
      apply List.filter_congr
      intro x _
      by_cases hx : x = h
      · subst hx
        have hpf : p x = false := by simpa using hp
        simp [hpf]
      · have hd : decide (x ≠ h) = true := by simp [hx]
        rw [hd, Bool.and_true]

theorem mem_firstOccs {α : Type} [DecidableEq α] (l : List α) (a : α) :
    a ∈ firstOccs l ↔ a ∈ l := by
  induction l with
  | nil => simp [firstOccs]
  | cons h t ih =>
    simp only [firstOccs, List.mem_cons, List.mem_filter, decide_eq_true_eq,
      ih]
    by_cases hah : a = h
    · simp [hah]
    · simp [hah]

theorem nodup_firstOccs {α : Type} [DecidableEq α] (l : List α) :
    (firstOccs l).Nodup := by
  induction l with
  | nil => simp [firstOccs]
  | cons h t ih =>
    rw [firstOccs, List.nodup_cons]
    refine ⟨?_, ih.filter _⟩
    intro hmem
    rcases List.mem_filter.mp hmem with ⟨-, hbool⟩
    simp at hbool

theorem pairwise_firstIdx {α : Type} [DecidableEq α] (l : List α) :
    List.Pairwise (fun a b => firstIdx a l < firstIdx b l) (firstOccs l) := by
  induction l with
  | nil => simp [firstOccs]
  | cons h t ih =>
    rw [firstOccs, List.pairwise_cons]
    constructor
    · intro b hb
      have hbne : b ≠ h := by
        rcases List.mem_filter.mp hb with ⟨-, hbool⟩
        simpa using hbool
      show firstIdx h (h :: t) < firstIdx b (h :: t)
      rw [firstIdx, firstIdx, if_pos rfl, if_neg (fun hh => hbne hh.symm)]
      exact Nat.succ_pos _
    · refine List.Pairwise.imp_of_mem ?_ (ih.filter (fun x => decide (x ≠ h)))
      intro a b ha hb hrel
      have hane : a ≠ h := by
        rcases List.mem_filter.mp ha with ⟨-, hbool⟩
        simpa using hbool
      have hbne : b ≠ h := by
        rcases List.mem_filter.mp hb with ⟨-, hbool⟩
        simpa using hbool
      show firstIdx a (h :: t) < firstIdx b (h :: t)
      rw [firstIdx, firstIdx, if_neg (fun hh => hane hh.symm),
        if_neg (fun hh => hbne hh.symm)]
      exact Nat.succ_lt_succ hrel

theorem foldl_unique_step {α : Type} [DecidableEq α] (l : List α)
    (u : List α) :
    l.foldl unique_step u
      = u ++ firstOccs (l.filter (fun x => decide (x ∉ u))) := by
  induction l generalizing u with
  | nil => simp [firstOccs]
  | cons e rest ih =>
    rw [List.foldl_cons]
    by_cases he : e ∈ u
    · rw [show unique_step u e = u from if_pos he, ih,
        List.filter_cons_of_neg (by simp [he])]
    · rw [show unique_step u e = u ++ [e] from if_neg he, ih,
        List.filter_cons_of_pos (by simpa using he), firstOccs,
        List.append_assoc]
      have harg : rest.filter (fun x => decide (x ∉ u ++ [e]))
          = (rest.filter (fun x => decide (x ∉ u))).filter
              (fun x => decide (x ≠ e)) := by
        rw [List.filter_filter]
        apply List.filter_congr
        intro x _
        have hiff : (x ∉ u ++ [e]) ↔ (x ∉ u ∧ x ≠ e) := by
          simp [not_or]
        rw [decide_eq_decide.mpr hiff, Bool.decide_and, Bool.and_comm]
      rw [harg, firstOccs_filter]
      rfl

theorem unique_by_index_eq_firstOccs {α : Type} [DecidableEq α]
    (s : List α) : unique_by_index s = firstOccs s := by
  unfold unique_by_index
  rw [foldl_unique_step]
  have : s.filter (fun x => decide (x ∉ ([] : List α))) = s :=
    List.filter_eq_self.mpr (fun a _ => by simp)
  rw [this, List.nil_append]

/-- Claim C8.  `unique_by_index` removes duplicates: every element of
the input appears in the result exactly once (same membership plus no
duplicates), and the result is strictly sorted by the index of each
element's first occurrence in the input, which puts each element at the
position its first occurrence determines and preserves the relative
order of first occurrences. -/
theorem unique_by_index_spec {α : Type} [DecidableEq α] (s : List α) :
    (∀ a, a ∈ unique_by_index s ↔ a ∈ s)
    ∧ (unique_by_index s).Nodup
    ∧ List.Pairwise (fun a b => firstIdx a s < firstIdx b s)
        (unique_by_index s) := by
  rw [unique_by_index_eq_firstOccs]
  exact ⟨fun a => mem_firstOccs s a, nodup_firstOccs s, pairwise_firstIdx s⟩

end Wheeltools
